import Mathlib

/-!
Verification of the personal expense tracker
(`Personal-Expense-Control-System-with-JSON-CSV-Persistence-in-Python.py`).

Shallow embedding conventions:
* Python floats are modelled as `Rat` (exact rationals); Python's
  `str(float)`/`float(str)` pair, which round-trips exactly for IEEE
  doubles, is modelled by the injective rendering `amountToString` and its
  exact parser `parseAmount`.
* The mutable `self.transactions` list is threaded explicitly as a
  `List Transaction` state.
* A raised `ValueError` / `TypeError` is an `Except VErr` error value; the
  distinct exception messages of the source become distinct constructors.
* The filesystem is a partial map from filenames to parsed file contents:
  for JSON a list of key/value records (the shape `json.dump`/`json.load`
  exchange), for CSV a list of 3-field string rows (the shape
  `csv.DictWriter`/`csv.DictReader` exchange, with the csv module's
  quoting of delimiters abstracted as exact cell round-tripping).
* The file also embeds the Spanish-identifier duplicate (`Movimiento`,
  lines 167-260), whose JSON load path differs observably from the
  English one: its dict keys match its constructor parameter names.
-/

namespace ExpenseSystem

/-- Errors the source can raise while building transactions or loading
files: `invalidKind` is the ValueError raised at line 28 for a kind
outside `("income", "expense")`, `nonPositiveAmount` the ValueError
raised at line 31 for an amount at most 0, `malformedAmount s` the
ValueError raised by `float(s)` on non-numeric text (line 113),
`unexpectedKwArg` and `missingArg` the TypeErrors Python raises when
`Transaction(**item)` is called with keyword arguments that do not match
the constructor parameters (line 92). -/
inductive VErr where
  | invalidKind : VErr
  | nonPositiveAmount : VErr
  | malformedAmount : String → VErr
  | unexpectedKwArg : VErr
  | missingArg : VErr
  deriving DecidableEq

/-- The `Transaction` record: fields as assigned at lines 33-35. -/
structure Transaction where
  transaction_type : String
  category : String
  amount : Rat
  deriving DecidableEq

/-- `Transaction.__init__` (lines 25-35): rejects a kind outside
`("income", "expense")`, then a non-positive amount, otherwise stores the
three arguments verbatim. -/
def Transaction.mk? (transaction_type category : String) (amount : Rat) :
    Except VErr Transaction :=
  if ¬(transaction_type = "income" ∨ transaction_type = "expense") then
    .error .invalidKind
  else if amount ≤ 0 then
    .error .nonPositiveAmount
  else
    .ok ⟨transaction_type, category, amount⟩

/-- A JSON scalar as it appears in the persisted records: the values of
`to_dict` are two strings and one number. -/
inductive JsonValue where
  | str : String → JsonValue
  | num : Rat → JsonValue
  deriving DecidableEq

/-- `Transaction.to_dict` (lines 38-44): the 3-key record
`{"type": ..., "category": ..., "amount": ...}` in that order. -/
def Transaction.to_dict (t : Transaction) : List (String × JsonValue) :=
  [("type", .str t.transaction_type),
   ("category", .str t.category),
   ("amount", .num t.amount)]

/-- The invariant every observable transaction satisfies: recognized kind
and strictly positive amount. -/
def ValidT (t : Transaction) : Prop :=
  (t.transaction_type = "income" ∨ t.transaction_type = "expense") ∧
    0 < t.amount

instance (t : Transaction) : Decidable (ValidT t) := by
  unfold ValidT; infer_instance

/-- `ExpenseTracker.add_transaction` (lines 60-63): construct (which may
raise), and only on success append to the list; the returned pair is the
new list together with the raised error, if any. -/
def add_transaction (transactions : List Transaction)
    (transaction_type category : String) (amount : Rat) :
    List Transaction × Option VErr :=
  match Transaction.mk? transaction_type category amount with
  | .ok t => (transactions ++ [t], none)
  | .error e => (transactions, some e)

/-- `ExpenseTracker.calculate_balance` (lines 65-69): income sum minus
expense sum, each a generator-expression sum over a type filter. -/
def calculate_balance (transactions : List Transaction) : Rat :=
  ((transactions.filter (fun t => t.transaction_type == "income")).map
      (fun t => t.amount)).sum -
    ((transactions.filter (fun t => t.transaction_type == "expense")).map
      (fun t => t.amount)).sum

/-- The Python dict update `summary[cat] = summary.get(cat, 0) + amt` on
an insertion-ordered association list: add to the existing entry in
place, or append a fresh entry at the end. -/
def dictInsertAdd : List (String × Rat) → String → Rat → List (String × Rat)
  | [], cat, amt => [(cat, amt)]
  | (k, v) :: rest, cat, amt =>
    if k == cat then (k, v + amt) :: rest
    else (k, v) :: dictInsertAdd rest cat amt

/-- One iteration of the loop body of `summary_by_category`
(lines 74-77): expenses update the dictionary, income is skipped. -/
def summaryStep (summary : List (String × Rat)) (t : Transaction) :
    List (String × Rat) :=
  if t.transaction_type == "expense" then
    dictInsertAdd summary t.category t.amount
  else summary

/-- `ExpenseTracker.summary_by_category` (lines 71-78). -/
def summary_by_category (transactions : List Transaction) :
    List (String × Rat) :=
  transactions.foldl summaryStep []

/-- Dictionary lookup on the insertion-ordered association list (the
observation `summary[cat]` / `cat in summary`). -/
def dictFind? : List (String × Rat) → String → Option Rat
  | [], _ => none
  | (k, v) :: rest, cat => if k == cat then some v else dictFind? rest cat

/-! ### Numeric text codec

`save_csv` writes `str(amount)` and `load_csv` applies `float(...)`
(line 113).  For IEEE doubles this pair round-trips exactly; with amounts
modelled as `Rat` the pair is modelled by the injective rendering
`amountToString` and the exact parser `parseAmount`, which fails with
`malformedAmount` on any text it cannot read (as `float("abc")` raises
`ValueError`). -/

/-- Base-10 digits of a natural number, most significant first. -/
def digitsOf (n : Nat) : List Nat :=
  if n < 10 then [n] else digitsOf (n / 10) ++ [n % 10]
decreasing_by exact Nat.div_lt_self (by omega) (by omega)

/-- Value of a most-significant-first digit list. -/
def ofDigits (l : List Nat) : Nat :=
  l.foldl (fun a d => 10 * a + d) 0

/-- Digit to its ASCII character. -/
def digitChar (d : Nat) : Char := Char.ofNat (d + 48)

/-- Inverse of `digitChar` on ASCII digits. -/
def charToDigit? (c : Char) : Option Nat :=
  if 48 ≤ c.toNat ∧ c.toNat ≤ 57 then some (c.toNat - 48) else none

/-- Decimal rendering of a natural number. -/
def natToChars (n : Nat) : List Char := (digitsOf n).map digitChar

/-- Left-to-right accumulating decimal parse. -/
def parseNatAux : List Char → Nat → Option Nat
  | [], acc => some acc
  | c :: cs, acc =>
    match charToDigit? c with
    | some d => parseNatAux cs (10 * acc + d)
    | none => none

/-- Decimal parse of a nonempty digit string. -/
def parseNat? (cs : List Char) : Option Nat :=
  match cs with
  | [] => none
  | _ => parseNatAux cs 0

/-- Decimal rendering of an integer, `'-'`-prefixed when negative. -/
def intToChars (i : Int) : List Char :=
  if i < 0 then Char.ofNat 45 :: natToChars i.natAbs else natToChars i.natAbs

/-- Decimal parse of an optionally `'-'`-prefixed integer string. -/
def parseInt? : List Char → Option Int
  | [] => none
  | c :: rest =>
    if c = Char.ofNat 45 then (parseNat? rest).map (fun n => -(Int.ofNat n))
    else (parseNat? (c :: rest)).map (fun n => Int.ofNat n)

/-- Split a character list at its first `'/'`, when one occurs. -/
def splitSlash : List Char → List Char × Option (List Char)
  | [] => ([], none)
  | c :: cs =>
    if c = Char.ofNat 47 then ([], some cs)
    else
      let (pre, rest) := splitSlash cs
      (c :: pre, rest)

/-- Model of `str(amount)`: the reduced fraction rendered as
`num/den`. -/
def amountToString (q : Rat) : String :=
  ⟨intToChars q.num ++ Char.ofNat 47 :: natToChars q.den⟩

/-- Model of `float(text)`: reads `num/den` or a plain integer, failing
with `malformedAmount` on anything else (as `float("abc")` raises). -/
def parseAmount (s : String) : Except VErr Rat :=
  match splitSlash s.data with
  | (pre, some post) =>
    match parseInt? pre, parseNat? post with
    | some n, some d =>
      if d = 0 then .error (.malformedAmount s) else .ok (mkRat n d)
    | _, _ => .error (.malformedAmount s)
  | (pre, none) =>
    match parseInt? pre with
    | some n => .ok ((n : Int) : Rat)
    | none => .error (.malformedAmount s)

/-! ### Persistence

Files are modelled at the granularity the Python json/csv libraries
exchange: a JSON file holds the list of key/value records that
`json.dump` wrote and `json.load` returns; a CSV file holds the list of
3-field string rows that `csv.DictWriter` wrote under the header
`type,category,amount` and `csv.DictReader` returns (the csv module's
quoting makes arbitrary cell text, delimiters included, round-trip
exactly, so rows are kept structured). A filesystem is a partial map
from filename to content; an absent binding is the `FileNotFoundError`
case. -/

/-- Effect of a Python list comprehension whose element expression may
raise: elements are produced in order and the first raise aborts the
whole comprehension. -/
def mapExcept (f : α → Except VErr β) : List α → Except VErr (List β)
  | [] => .ok []
  | a :: l =>
    match f a with
    | .error e => .error e
    | .ok b =>
      match mapExcept f l with
      | .error e => .error e
      | .ok bs => .ok (b :: bs)

/-- Observable outcome of a load call: normal return after replacing the
list, the caught `FileNotFoundError` path, or an uncaught exception
propagating to the caller. -/
inductive LoadResult where
  | ok : LoadResult
  | notFound : LoadResult
  | error : VErr → LoadResult
  deriving DecidableEq

/-- A JSON filesystem: each present file is the list of records
`json.dump` received. -/
def JsonFS : Type := String → Option (List (List (String × JsonValue)))

/-- A stored CSV data row under the fixed header. -/
structure CsvRow where
  type : String
  category : String
  amount : String
  deriving DecidableEq

/-- A CSV filesystem: each present file is its list of data rows. -/
def CsvFS : Type := String → Option (List CsvRow)

/-- `Transaction(**item)` at line 92: Python matches the dict keys
against the constructor parameter names `transaction_type`, `category`,
`amount`; any other key raises `TypeError: unexpected keyword argument`
and a missing or mistyped parameter also raises a TypeError; only when
all three match does the validated constructor run. -/
def transactionFromKwargs (item : List (String × JsonValue)) :
    Except VErr Transaction :=
  if item.all (fun p =>
      p.1 == "transaction_type" || p.1 == "category" || p.1 == "amount") then
    match List.lookup "transaction_type" item, List.lookup "category" item,
        List.lookup "amount" item with
    | some (.str ty), some (.str cat), some (.num amount) =>
      Transaction.mk? ty cat amount
    | _, _, _ => .error .missingArg
  else .error .unexpectedKwArg

/-- `ExpenseTracker.save_json` (lines 81-85): writes
`[t.to_dict() for t in self.transactions]` to the named file. -/
def save_json (fs : JsonFS) (filename : String)
    (transactions : List Transaction) : JsonFS :=
  fun n =>
    if n = filename then some (transactions.map Transaction.to_dict) else fs n

/-- `ExpenseTracker.load_json` (lines 87-96): replace the list with
`[Transaction(**item) for item in data]`; a missing file is caught and
resets the list to empty; any exception from the comprehension
propagates, leaving `self.transactions` as it was. -/
def load_json (fs : JsonFS) (filename : String)
    (transactions : List Transaction) : List Transaction × LoadResult :=
  match fs filename with
  | none => ([], .notFound)
  | some data =>
    match mapExcept transactionFromKwargs data with
    | .ok ts => (ts, .ok)
    | .error e => (transactions, .error e)

/-- The row `csv.DictWriter.writerow(t.to_dict())` emits for a
transaction (line 104): the three fields as text. -/
def Transaction.toCsvRow (t : Transaction) : CsvRow :=
  ⟨t.transaction_type, t.category, amountToString t.amount⟩

/-- One element of the `load_csv` comprehension (line 113):
`Transaction(row["type"], row["category"], float(row["amount"]))`; the
amount text is parsed first (its failure raises before the constructor
runs), then the validated constructor. -/
def rowToTransaction (r : CsvRow) : Except VErr Transaction :=
  match parseAmount r.amount with
  | .error e => .error e
  | .ok a => Transaction.mk? r.type r.category a

/-- `ExpenseTracker.save_csv` (lines 98-105). -/
def save_csv (fs : CsvFS) (filename : String)
    (transactions : List Transaction) : CsvFS :=
  fun n =>
    if n = filename then some (transactions.map Transaction.toCsvRow) else fs n

/-- `ExpenseTracker.load_csv` (lines 107-119): same shape as
`load_json`, with the row conversion of `rowToTransaction`. -/
def load_csv (fs : CsvFS) (filename : String)
    (transactions : List Transaction) : List Transaction × LoadResult :=
  match fs filename with
  | none => ([], .notFound)
  | some rows =>
    match mapExcept rowToTransaction rows with
    | .ok ts => (ts, .ok)
    | .error e => (transactions, .error e)

/-! ### The Spanish-identifier duplicate (lines 167-260)

Same logic with localized identifiers; kept because its JSON load path
(`Movimiento(**item)`, line 236) differs observably from the English one:
its `to_dict` keys `tipo`/`categoria`/`monto` (line 188) match its
constructor parameter names, so keyword-argument reconstruction
succeeds. -/

/-- The `Movimiento` record (lines 181-183). -/
structure Movimiento where
  tipo : String
  categoria : String
  monto : Rat
  deriving DecidableEq

/-- `Movimiento.__init__` (lines 173-183). -/
def Movimiento.mk? (tipo categoria : String) (monto : Rat) :
    Except VErr Movimiento :=
  if ¬(tipo = "ingreso" ∨ tipo = "gasto") then .error .invalidKind
  else if monto ≤ 0 then .error .nonPositiveAmount
  else .ok ⟨tipo, categoria, monto⟩

/-- `Movimiento.to_dict` (lines 186-188). -/
def Movimiento.to_dict (m : Movimiento) : List (String × JsonValue) :=
  [("tipo", .str m.tipo),
   ("categoria", .str m.categoria),
   ("monto", .num m.monto)]

/-- `Movimiento(**item)` at line 236, with parameter names
`tipo`/`categoria`/`monto`. -/
def movimientoFromKwargs (item : List (String × JsonValue)) :
    Except VErr Movimiento :=
  if item.all (fun p =>
      p.1 == "tipo" || p.1 == "categoria" || p.1 == "monto") then
    match List.lookup "tipo" item, List.lookup "categoria" item,
        List.lookup "monto" item with
    | some (.str ty), some (.str cat), some (.num monto) =>
      Movimiento.mk? ty cat monto
    | _, _, _ => .error .missingArg
  else .error .unexpectedKwArg

/-- The invariant of the Spanish variant. -/
def ValidM (m : Movimiento) : Prop :=
  (m.tipo = "ingreso" ∨ m.tipo = "gasto") ∧ 0 < m.monto

/-! ### Spec-side observation functions and sample data -/

/-- The expense entries carrying a given category (the group summed into
`summary[cat]`). -/
def expenseCat (transactions : List Transaction) (cat : String) :
    List Transaction :=
  transactions.filter
    (fun t => t.transaction_type == "expense" && t.category == cat)

/-- Stated from the spec: the sum of `amount` over all entries with kind
Income. -/
def incomeSumSpec (transactions : List Transaction) : Rat :=
  (transactions.map
    (fun t => if t.transaction_type = "income" then t.amount else 0)).sum

/-- Stated from the spec: the sum of `amount` over all entries with kind
Expense. -/
def expenseSumSpec (transactions : List Transaction) : Rat :=
  (transactions.map
    (fun t => if t.transaction_type = "expense" then t.amount else 0)).sum

/-- Sum of all values of a category summary. -/
def summaryValuesTotal (summary : List (String × Rat)) : Rat :=
  (summary.map (fun p => p.2)).sum

/-- An empty JSON filesystem (every open raises FileNotFoundError). -/
def emptyJsonFS : JsonFS := fun _ => none

/-- An empty CSV filesystem. -/
def emptyCsvFS : CsvFS := fun _ => none

/-- A well-formed CSV data row. -/
def goodRow : CsvRow := ⟨"expense", "food", "5"⟩

/-- A CSV data row whose kind token is unrecognized. -/
def badKindRow : CsvRow := ⟨"banana", "unknown", "5"⟩

/-- A CSV data row whose amount text cannot be parsed as a number. -/
def malformedRow : CsvRow := ⟨"expense", "food", "abc"⟩

/-- A CSV filesystem whose single file has an invalid-kind row before
the malformed-amount row. -/
def csvWithBadThenMalformed : CsvFS := fun _ => some [badKindRow, malformedRow]

/-- A CSV filesystem whose single file has a well-formed row before the
malformed-amount row. -/
def csvWithGoodThenMalformed : CsvFS := fun _ => some [goodRow, malformedRow]

/-- A CSV filesystem whose single file loads successfully. -/
def csvGoodFS : CsvFS := fun _ => some [goodRow]

/-- A JSON filesystem whose single file has the constructor parameter
names as keys, so that even `Transaction(**item)` accepts it. -/
def jsonGoodFS : JsonFS :=
  fun _ => some [[("transaction_type", .str "income"),
                  ("category", .str "salary"),
                  ("amount", .num 2500)]]

/-- Valid sample transactions; one category contains the CSV delimiter. -/
def sampleValidTransactions : List Transaction :=
  [⟨"income", "salary", 2500⟩,
   ⟨"expense", "food,restaurants", 3/2⟩,
   ⟨"expense", "transportation", 150⟩]

/-! ### Codec lemmas -/

theorem ofDigits_digitsOf (n : Nat) : ofDigits (digitsOf n) = n := by
  induction n using Nat.strong_induction_on with
  | _ n ih =>
    rw [digitsOf]
    split
    · simp [ofDigits]
    · have hlt : n / 10 < n := Nat.div_lt_self (by omega) (by omega)
      have := ih (n / 10) hlt
      simp only [ofDigits, List.foldl_append] at *
      simp only [List.foldl] at *
      omega

theorem digitsOf_lt_ten (n : Nat) : ∀ d ∈ digitsOf n, d < 10 := by
  induction n using Nat.strong_induction_on with
  | _ n ih =>
    rw [digitsOf]
    split
    · intro d hd; simp at hd; omega
    · intro d hd
      rcases List.mem_append.mp hd with h | h
      · exact ih (n / 10) (Nat.div_lt_self (by omega) (by omega)) d h
      · simp at h; omega

theorem digitsOf_ne_nil (n : Nat) : digitsOf n ≠ [] := by
  rw [digitsOf]; split <;> simp

theorem charToDigit?_digitChar : ∀ d < 10, charToDigit? (digitChar d) = some d := by
  decide

theorem digitChar_ne_minus : ∀ d < 10, digitChar d ≠ Char.ofNat 45 := by
  decide

theorem digitChar_ne_slash : ∀ d < 10, digitChar d ≠ Char.ofNat 47 := by
  decide

theorem parseNatAux_map_digitChar (ds : List Nat) :
    ∀ acc, (∀ d ∈ ds, d < 10) →
      parseNatAux (ds.map digitChar) acc =
        some (ds.foldl (fun a d => 10 * a + d) acc) := by
  induction ds with
  | nil => intro acc _; rfl
  | cons d ds ih =>
    intro acc h
    have hd : d < 10 := h d (by simp)
    simp only [List.map_cons, parseNatAux, charToDigit?_digitChar d hd,
      List.foldl_cons]
    exact ih _ (fun x hx => h x (by simp [hx]))

theorem parseNat?_natToChars (n : Nat) : parseNat? (natToChars n) = some n := by
  have hne : digitsOf n ≠ [] := digitsOf_ne_nil n
  unfold natToChars parseNat?
  cases h : digitsOf n with
  | nil => exact absurd h hne
  | cons d ds =>
    simp only [List.map_cons]
    have := parseNatAux_map_digitChar (d :: ds) 0
      (by rw [← h]; exact digitsOf_lt_ten n)
    simp only [List.map_cons] at this
    rw [this]
    have hv := ofDigits_digitsOf n
    rw [h] at hv
    simpa [ofDigits] using congrArg some hv

theorem natToChars_head_not_minus (n : Nat) (c : Char) (rest : List Char)
    (h : natToChars n = c :: rest) : c ≠ Char.ofNat 45 := by
  unfold natToChars at h
  cases hd : digitsOf n with
  | nil => exact absurd hd (digitsOf_ne_nil n)
  | cons d ds =>
    rw [hd] at h
    simp only [List.map_cons, List.cons.injEq] at h
    have : d < 10 := digitsOf_lt_ten n d (by rw [hd]; simp)
    rw [← h.1]
    exact digitChar_ne_minus d this

theorem parseInt?_intToChars (i : Int) : parseInt? (intToChars i) = some i := by
  unfold intToChars
  split
  · next hneg =>
    have habs : |i| = -i := abs_of_neg hneg
    simp [parseInt?, parseNat?_natToChars, habs]
  · next hpos =>
    have habs : |i| = i := abs_of_nonneg (by omega)
    cases h : natToChars i.natAbs with
    | nil =>
      exact absurd h (by unfold natToChars; simp [digitsOf_ne_nil i.natAbs])
    | cons c rest =>
      have hc : c ≠ Char.ofNat 45 := natToChars_head_not_minus _ _ _ h
      simp only [parseInt?, if_neg hc]
      rw [← h, parseNat?_natToChars]
      simp [habs]

theorem splitSlash_append (pre post : List Char) (h : Char.ofNat 47 ∉ pre) :
    splitSlash (pre ++ Char.ofNat 47 :: post) = (pre, some post) := by
  induction pre with
  | nil => simp [splitSlash]
  | cons c cs ih =>
    have hc : c ≠ Char.ofNat 47 := by
      intro hcc; exact h (by simp [hcc])
    have hih := ih (fun hm => h (by simp [hm]))
    simp [splitSlash, hc, hih]

theorem slash_not_mem_natToChars (n : Nat) : Char.ofNat 47 ∉ natToChars n := by
  unfold natToChars
  intro h
  rcases List.mem_map.mp h with ⟨d, hd, hch⟩
  exact digitChar_ne_slash d (digitsOf_lt_ten n d hd) hch

theorem slash_not_mem_intToChars (i : Int) : Char.ofNat 47 ∉ intToChars i := by
  unfold intToChars
  split
  · intro h
    rcases List.mem_cons.mp h with h | h
    · exact absurd h.symm (by decide)
    · exact slash_not_mem_natToChars _ h
  · exact slash_not_mem_natToChars _

theorem parseAmount_amountToString (q : Rat) :
    parseAmount (amountToString q) = .ok q := by
  have hdata : (amountToString q).data =
      intToChars q.num ++ Char.ofNat 47 :: natToChars q.den := rfl
  unfold parseAmount
  rw [hdata, splitSlash_append _ _ (slash_not_mem_intToChars q.num)]
  simp only [parseInt?_intToChars, parseNat?_natToChars]
  rw [if_neg q.den_nz]
  rw [Rat.mkRat_self]

/-! ### Constructor and comprehension lemmas -/

theorem mk?_eta (t : Transaction) (h : ValidT t) :
    Transaction.mk? t.transaction_type t.category t.amount = .ok t := by
  rcases h with ⟨hk, ha⟩
  unfold Transaction.mk?
  rw [if_neg (not_not_intro hk), if_neg (not_le.mpr ha)]

theorem mapExcept_ok_mem {f : α → Except VErr β} :
    ∀ {l : List α} {l' : List β}, mapExcept f l = .ok l' →
      ∀ b ∈ l', ∃ a ∈ l, f a = .ok b := by
  intro l
  induction l with
  | nil =>
    intro l' h b hb
    unfold mapExcept at h
    cases h
    simp at hb
  | cons a l ih =>
    intro l' h b hb
    unfold mapExcept at h
    cases hfa : f a with
    | error e => rw [hfa] at h; cases h
    | ok b0 =>
      rw [hfa] at h
      cases hrest : mapExcept f l with
      | error e => rw [hrest] at h; cases h
      | ok bs =>
        rw [hrest] at h
        cases h
        rcases List.mem_cons.mp hb with rfl | hmem
        · exact ⟨a, by simp, hfa⟩
        · rcases ih hrest b hmem with ⟨a', ha', hfa'⟩
          exact ⟨a', by simp [ha'], hfa'⟩

theorem mapExcept_error_of_mem {f : α → Except VErr β} {l : List α}
    {a : α} (ha : a ∈ l) (hfa : ∀ b, f a ≠ .ok b) :
    ∃ e, mapExcept f l = .error e := by
  induction l with
  | nil => simp at ha
  | cons x l ih =>
    cases hfx : f x with
    | error e => exact ⟨e, by simp only [mapExcept, hfx]⟩
    | ok b =>
      rcases List.mem_cons.mp ha with rfl | hmem
      · exact absurd hfx (hfa b)
      · rcases ih hmem with ⟨e, he⟩
        exact ⟨e, by simp only [mapExcept, hfx, he]⟩

theorem mapExcept_append_error {f : α → Except VErr β} {pre : List α}
    (hpre : ∀ p ∈ pre, ∃ b, f p = .ok b) {r : α} (post : List α) {e : VErr}
    (hr : f r = .error e) :
    mapExcept f (pre ++ r :: post) = .error e := by
  induction pre with
  | nil => simp only [List.nil_append, mapExcept, hr]
  | cons p ps ih =>
    rcases hpre p (by simp) with ⟨b, hb⟩
    have hih := ih (fun x hx => hpre x (by simp [hx]))
    simp only [List.cons_append, mapExcept, hb, List.append_eq, hih]

theorem validT_sample : ∀ t ∈ sampleValidTransactions, ValidT t := by
  intro t ht
  simp only [sampleValidTransactions, List.mem_cons, List.not_mem_nil,
    or_false] at ht
  rcases ht with rfl | rfl | rfl
  · exact ⟨Or.inl rfl, by norm_num⟩
  · exact ⟨Or.inr rfl, by norm_num⟩
  · exact ⟨Or.inr rfl, by norm_num⟩

theorem mk?_valid {ty cat : String} {amount : Rat} {t : Transaction}
    (h : Transaction.mk? ty cat amount = .ok t) : ValidT t := by
  unfold Transaction.mk? at h
  by_cases h1 : ¬(ty = "income" ∨ ty = "expense")
  · rw [if_pos h1] at h; cases h
  · rw [if_neg h1] at h
    by_cases h2 : amount ≤ 0
    · rw [if_pos h2] at h; cases h
    · rw [if_neg h2] at h
      injection h with h
      subst h
      exact ⟨not_not.mp h1, not_le.mp h2⟩

theorem transactionFromKwargs_valid {item : List (String × JsonValue)}
    {t : Transaction} (h : transactionFromKwargs item = .ok t) : ValidT t := by
  unfold transactionFromKwargs at h
  split at h
  · split at h
    · exact mk?_valid h
    · cases h
  · cases h

theorem rowToTransaction_valid {r : CsvRow} {t : Transaction}
    (h : rowToTransaction r = .ok t) : ValidT t := by
  unfold rowToTransaction at h
  split at h
  · cases h
  · exact mk?_valid h

theorem rowToTransaction_toCsvRow (t : Transaction) (h : ValidT t) :
    rowToTransaction (Transaction.toCsvRow t) = .ok t := by
  simp only [rowToTransaction, Transaction.toCsvRow, parseAmount_amountToString]
  exact mk?_eta t h

theorem mapExcept_toCsvRow (ts : List Transaction) (h : ∀ t ∈ ts, ValidT t) :
    mapExcept rowToTransaction (ts.map Transaction.toCsvRow) = .ok ts := by
  induction ts with
  | nil => rfl
  | cons t ts ih =>
    have h1 := rowToTransaction_toCsvRow t (h t (by simp))
    have h2 := ih (fun x hx => h x (by simp [hx]))
    simp only [List.map_cons, mapExcept, h1, h2]

theorem transactionFromKwargs_to_dict (t : Transaction) :
    transactionFromKwargs (Transaction.to_dict t) = .error .unexpectedKwArg :=
  rfl

theorem movimiento_mk?_eta (m : Movimiento) (h : ValidM m) :
    Movimiento.mk? m.tipo m.categoria m.monto = .ok m := by
  rcases h with ⟨hk, ha⟩
  unfold Movimiento.mk?
  rw [if_neg (not_not_intro hk), if_neg (not_le.mpr ha)]

theorem movimientoFromKwargs_to_dict (m : Movimiento) (h : ValidM m) :
    movimientoFromKwargs (Movimiento.to_dict m) = .ok m := by
  have hred : movimientoFromKwargs (Movimiento.to_dict m) =
      Movimiento.mk? m.tipo m.categoria m.monto := rfl
  rw [hred]
  exact movimiento_mk?_eta m h

/-- The Spanish variant's JSON record list reconstructs verbatim: its
keys match its constructor parameters. -/
theorem mapExcept_movimiento_roundtrip (ms : List Movimiento)
    (h : ∀ m ∈ ms, ValidM m) :
    mapExcept movimientoFromKwargs (ms.map Movimiento.to_dict) = .ok ms := by
  induction ms with
  | nil => rfl
  | cons m ms ih =>
    have h1 := movimientoFromKwargs_to_dict m (h m (by simp))
    have h2 := ih (fun x hx => h x (by simp [hx]))
    simp only [List.map_cons, mapExcept, h1, h2]

/-! ### Balance lemmas -/

theorem filter_map_sum_eq (p : String) (ts : List Transaction) :
    ((ts.filter (fun t => t.transaction_type == p)).map
      (fun t => t.amount)).sum =
      (ts.map (fun t => if t.transaction_type = p then t.amount else 0)).sum := by
  induction ts with
  | nil => rfl
  | cons t ts ih =>
    by_cases h : t.transaction_type = p
    · simp [List.filter_cons, h, ih]
    · simp [List.filter_cons, h, ih]

theorem balance_eq_spec (transactions : List Transaction) :
    calculate_balance transactions =
      incomeSumSpec transactions - expenseSumSpec transactions := by
  unfold calculate_balance incomeSumSpec expenseSumSpec
  rw [filter_map_sum_eq "income", filter_map_sum_eq "expense"]

theorem balance_perm {l l' : List Transaction} (h : l.Perm l') :
    calculate_balance l = calculate_balance l' := by
  have hi :=
    ((h.filter (fun t => t.transaction_type == "income")).map
      (fun t => t.amount)).sum_eq
  have he :=
    ((h.filter (fun t => t.transaction_type == "expense")).map
      (fun t => t.amount)).sum_eq
  unfold calculate_balance
  rw [hi, he]

/-! ### Summary dictionary lemmas -/

theorem dictInsertAdd_ne_nil (s : List (String × Rat)) (cat : String)
    (amt : Rat) : dictInsertAdd s cat amt ≠ [] := by
  cases s with
  | nil => simp [dictInsertAdd]
  | cons p rest =>
    obtain ⟨k, v⟩ := p
    by_cases h : (k == cat) = true <;> simp [dictInsertAdd, h]

theorem dictFind?_insertAdd_self (s : List (String × Rat)) (cat : String)
    (amt : Rat) :
    dictFind? (dictInsertAdd s cat amt) cat =
      some ((dictFind? s cat).getD 0 + amt) := by
  induction s with
  | nil => simp [dictInsertAdd, dictFind?]
  | cons p rest ih =>
    obtain ⟨k, v⟩ := p
    cases hk : k == cat with
    | true => simp [dictInsertAdd, dictFind?, hk]
    | false => simp [dictInsertAdd, dictFind?, hk, ih]

theorem dictFind?_insertAdd_ne (s : List (String × Rat)) {cat cat' : String}
    (h : cat' ≠ cat) (amt : Rat) :
    dictFind? (dictInsertAdd s cat amt) cat' = dictFind? s cat' := by
  have hb : (cat == cat') = false :=
    beq_eq_false_iff_ne.mpr (fun e => h e.symm)
  induction s with
  | nil => simp [dictInsertAdd, dictFind?, hb]
  | cons p rest ih =>
    obtain ⟨k, v⟩ := p
    cases hk : k == cat with
    | true =>
      have hkeq : k = cat := eq_of_beq hk
      have hk' : (k == cat') = false := by rw [hkeq]; exact hb
      simp [dictInsertAdd, dictFind?, hk, hk']
    | false =>
      simp [dictInsertAdd, dictFind?, hk, ih]

theorem summary_foldl_find (ts : List Transaction) :
    ∀ (s : List (String × Rat)) (cat : String),
      dictFind? (ts.foldl summaryStep s) cat =
        if expenseCat ts cat = [] then dictFind? s cat
        else some ((dictFind? s cat).getD 0 +
          ((expenseCat ts cat).map (fun t => t.amount)).sum) := by
  induction ts with
  | nil => intro s cat; simp [expenseCat]
  | cons t ts ih =>
    intro s cat
    rw [List.foldl_cons]
    cases hexp : t.transaction_type == "expense" with
    | false =>
      have hstep : summaryStep s t = s := by simp [summaryStep, hexp]
      have hfil : expenseCat (t :: ts) cat = expenseCat ts cat := by
        simp [expenseCat, List.filter_cons, hexp]
      rw [hstep, hfil, ih]
    | true =>
      have hstep : summaryStep s t = dictInsertAdd s t.category t.amount := by
        simp [summaryStep, hexp]
      rw [hstep]
      cases hcat : t.category == cat with
      | false =>
        have hfil : expenseCat (t :: ts) cat = expenseCat ts cat := by
          simp [expenseCat, List.filter_cons, hexp, hcat]
        have hne : cat ≠ t.category := by
          intro e
          subst e
          simp at hcat
        have hfind := dictFind?_insertAdd_ne s hne t.amount
        rw [ih, hfind, hfil]
      | true =>
        have hceq : t.category = cat := eq_of_beq hcat
        subst hceq
        have hfil : expenseCat (t :: ts) t.category =
            t :: expenseCat ts t.category := by
          simp [expenseCat, List.filter_cons, hexp]
        rw [ih, hfil, dictFind?_insertAdd_self]
        by_cases hnil : expenseCat ts t.category = []
        · simp [hnil]
        · simp [hnil, add_assoc]

theorem foldl_summaryStep_ne_nil (ts : List Transaction) :
    ∀ s, s ≠ [] → ts.foldl summaryStep s ≠ [] := by
  induction ts with
  | nil => intro s hs; simpa using hs
  | cons t ts ih =>
    intro s hs
    rw [List.foldl_cons]
    apply ih
    by_cases hexp : (t.transaction_type == "expense") = true
    · simp [summaryStep, hexp, dictInsertAdd_ne_nil]
    · simpa [summaryStep, hexp] using hs

theorem foldl_summaryStep_no_expense (ts : List Transaction)
    (h : ∀ t ∈ ts, (t.transaction_type == "expense") = false) :
    ∀ s, ts.foldl summaryStep s = s := by
  induction ts with
  | nil => intro s; rfl
  | cons t ts ih =>
    intro s
    rw [List.foldl_cons]
    have hstep : summaryStep s t = s := by simp [summaryStep, h t (by simp)]
    rw [hstep]
    exact ih (fun x hx => h x (by simp [hx])) s

theorem summary_eq_nil_iff (ts : List Transaction) :
    summary_by_category ts = [] ↔
      ts.filter (fun t => t.transaction_type == "expense") = [] := by
  constructor
  · induction ts with
    | nil => intro _; rfl
    | cons t ts ih =>
      intro h
      unfold summary_by_category at h
      rw [List.foldl_cons] at h
      cases hexp : t.transaction_type == "expense" with
      | true =>
        exfalso
        have hstep : summaryStep [] t = dictInsertAdd [] t.category t.amount := by
          simp [summaryStep, hexp]
        rw [hstep] at h
        exact foldl_summaryStep_ne_nil ts _ (dictInsertAdd_ne_nil _ _ _) h
      | false =>
        have hstep : summaryStep [] t = [] := by simp [summaryStep, hexp]
        rw [hstep] at h
        simp only [List.filter_cons, hexp]
        exact ih h
  · intro h
    have hall := List.filter_eq_nil_iff.mp h
    unfold summary_by_category
    exact foldl_summaryStep_no_expense ts
      (fun t ht => by simpa using hall t ht) []

theorem summaryValuesTotal_insertAdd (s : List (String × Rat)) (cat : String)
    (amt : Rat) :
    summaryValuesTotal (dictInsertAdd s cat amt) =
      summaryValuesTotal s + amt := by
  induction s with
  | nil => simp [dictInsertAdd, summaryValuesTotal]
  | cons p rest ih =>
    obtain ⟨k, v⟩ := p
    cases hk : k == cat with
    | true =>
      simp only [dictInsertAdd, hk, if_true, summaryValuesTotal,
        List.map_cons, List.sum_cons]
      ring
    | false =>
      simp only [dictInsertAdd, hk, Bool.false_eq_true, if_false,
        summaryValuesTotal, List.map_cons, List.sum_cons] at *
      rw [ih]
      ring

theorem summaryValuesTotal_foldl (ts : List Transaction) :
    ∀ s, summaryValuesTotal (ts.foldl summaryStep s) =
      summaryValuesTotal s + expenseSumSpec ts := by
  induction ts with
  | nil => intro s; simp [expenseSumSpec]
  | cons t ts ih =>
    intro s
    rw [List.foldl_cons]
    by_cases hexp : t.transaction_type = "expense"
    · have hstep : summaryStep s t = dictInsertAdd s t.category t.amount := by
        simp [summaryStep, hexp]
      rw [hstep, ih, summaryValuesTotal_insertAdd]
      simp [expenseSumSpec, hexp]
      ring
    · have hstep : summaryStep s t = s := by simp [summaryStep, hexp]
      rw [hstep, ih]
      simp [expenseSumSpec, hexp]

/-! ### Claims -/

/-- C1: the JSON round-trip fails on every nonempty sequence: `save_json`
writes records keyed `type`/`category`/`amount` (the `to_dict` keys)
while the constructor parameter is named `transaction_type`, so
`Transaction(**item)` raises `TypeError: unexpected keyword argument`
for every saved record; the load aborts with the prior list retained
instead of reproducing the saved sequence (only the empty sequence
round-trips). The Spanish twin avoids this because its keys match its
parameter names (`mapExcept_movimiento_roundtrip`). -/
theorem save_json_load_json_crashes :
    (∀ t : Transaction,
      transactionFromKwargs (Transaction.to_dict t) =
        .error .unexpectedKwArg) ∧
    load_json
        (save_json emptyJsonFS "transactions.json"
          [⟨"income", "salary", 2500⟩])
        "transactions.json" [⟨"expense", "food", 300⟩] =
      ([⟨"expense", "food", 300⟩], .error .unexpectedKwArg) ∧
    load_json (save_json emptyJsonFS "transactions.json" [])
        "transactions.json" [] = ([], .ok) :=
  ⟨fun _ => rfl, rfl, rfl⟩

/-- C2: saving to CSV and loading from the same target reproduces any
sequence of valid transactions exactly — same count, order and fields,
for arbitrary category text (the csv layer round-trips cells exactly and
the amount codec is exact). -/
theorem save_csv_load_csv_roundtrip (fs : CsvFS) (filename : String)
    (transactions prior : List Transaction)
    (h : ∀ t ∈ transactions, ValidT t) :
    load_csv (save_csv fs filename transactions) filename prior =
      (transactions, .ok) := by
  have hfile : (save_csv fs filename transactions) filename =
      some (transactions.map Transaction.toCsvRow) := by
    unfold save_csv
    simp
  simp only [load_csv, hfile, mapExcept_toCsvRow transactions h]

/-- Witness for C2 at a concrete ledger whose middle category contains
the CSV delimiter. -/
theorem save_csv_load_csv_roundtrip_witness :
    ValidT ⟨"expense", "food,restaurants", 3/2⟩ ∧
    load_csv (save_csv emptyCsvFS "transactions.csv" sampleValidTransactions)
        "transactions.csv" [] = (sampleValidTransactions, .ok) :=
  ⟨⟨Or.inr rfl, by norm_num⟩,
   save_csv_load_csv_roundtrip emptyCsvFS "transactions.csv"
     sampleValidTransactions [] validT_sample⟩

/-- C3 counterexample: when both the kind and the amount are invalid the
source raises the kind error (line 27 runs before line 30), not
`nonPositiveAmount`, refuting the unconditional amount clause. -/
theorem transaction_kind_precedence_counterexample :
    ((-1 : Rat) ≤ 0) ∧
    Transaction.mk? "banana" "rent" (-1) = .error .invalidKind ∧
    Transaction.mk? "banana" "rent" (-1) ≠ .error .nonPositiveAmount := by
  have h2 : Transaction.mk? "banana" "rent" (-1) = .error .invalidKind := rfl
  exact ⟨by norm_num, h2, by simp [h2]⟩

/-- C3 (amended): construction succeeds exactly for a recognized kind
with positive amount; an unrecognized kind fails with `invalidKind`
(also when the amount is non-positive, since the kind check runs first);
a recognized kind with non-positive amount fails with
`nonPositiveAmount`; the two failures are distinct; on success `to_dict`
returns the three given values verbatim. -/
theorem transaction_construction_spec (ty cat : String) (amount : Rat) :
    ((∃ t, Transaction.mk? ty cat amount = .ok t) ↔
      ((ty = "income" ∨ ty = "expense") ∧ 0 < amount)) ∧
    (¬(ty = "income" ∨ ty = "expense") →
      Transaction.mk? ty cat amount = .error .invalidKind) ∧
    ((ty = "income" ∨ ty = "expense") → amount ≤ 0 →
      Transaction.mk? ty cat amount = .error .nonPositiveAmount) ∧
    VErr.invalidKind ≠ VErr.nonPositiveAmount ∧
    (∀ t, Transaction.mk? ty cat amount = .ok t →
      Transaction.to_dict t =
        [("type", .str ty), ("category", .str cat),
         ("amount", .num amount)]) := by
  by_cases hk : ty = "income" ∨ ty = "expense"
  · by_cases ha : amount ≤ 0
    · have hval : Transaction.mk? ty cat amount =
          .error .nonPositiveAmount := by
        unfold Transaction.mk?
        rw [if_neg (not_not_intro hk), if_pos ha]
      refine ⟨⟨?_, ?_⟩, fun hcon => absurd hk hcon, fun _ _ => hval,
        by simp, fun t ht => ?_⟩
      · rintro ⟨t, ht⟩; rw [hval] at ht; cases ht
      · rintro ⟨_, hpos⟩; exact absurd ha (not_le.mpr hpos)
      · rw [hval] at ht; cases ht
    · have hval : Transaction.mk? ty cat amount = .ok ⟨ty, cat, amount⟩ := by
        unfold Transaction.mk?
        rw [if_neg (not_not_intro hk), if_neg ha]
      refine ⟨⟨fun _ => ⟨hk, not_le.mp ha⟩, fun _ => ⟨_, hval⟩⟩,
        fun hcon => absurd hk hcon, fun _ hle => absurd hle ha, by simp,
        fun t ht => ?_⟩
      rw [hval] at ht
      injection ht with ht
      subst ht
      rfl
  · have hval : Transaction.mk? ty cat amount = .error .invalidKind := by
      unfold Transaction.mk?
      rw [if_pos hk]
    refine ⟨⟨?_, fun hcon => absurd hcon.1 hk⟩, fun _ => hval,
      fun hkk _ => absurd hkk hk, by simp, fun t ht => ?_⟩
    · rintro ⟨t, ht⟩; rw [hval] at ht; cases ht
    · rw [hval] at ht; cases ht

/-- Witness for the amended C3 at concrete inputs. -/
theorem transaction_construction_instances :
    Transaction.mk? "pizza" "food" 5 = .error .invalidKind ∧
    Transaction.mk? "income" "salary" (-2) = .error .nonPositiveAmount ∧
    Transaction.to_dict ⟨"income", "salary", 2500⟩ =
      [("type", .str "income"), ("category", .str "salary"),
       ("amount", .num 2500)] :=
  ⟨(transaction_construction_spec "pizza" "food" 5).2.1 (by decide),
   (transaction_construction_spec "income" "salary" (-2)).2.2.1
     (Or.inl rfl) (by norm_num),
   (transaction_construction_spec "income" "salary" 2500).2.2.2.2
     ⟨"income", "salary", 2500⟩ rfl⟩

/-- C4: `add_transaction` either appends exactly the one new transaction
at the end, with every earlier element and the order untouched, or fails
leaving the list exactly as it was. -/
theorem add_transaction_append_or_unchanged (transactions : List Transaction)
    (ty cat : String) (amount : Rat) :
    (∃ t, Transaction.mk? ty cat amount = .ok t ∧
      add_transaction transactions ty cat amount =
        (transactions ++ [t], none)) ∨
    (∃ e, Transaction.mk? ty cat amount = .error e ∧
      add_transaction transactions ty cat amount = (transactions, some e)) := by
  cases h : Transaction.mk? ty cat amount with
  | ok t =>
    refine Or.inl ⟨t, rfl, ?_⟩
    unfold add_transaction
    rw [h]
  | error e =>
    refine Or.inr ⟨e, rfl, ?_⟩
    unfold add_transaction
    rw [h]

/-- C5: the balance is the income total minus the expense total, is 0 on
the empty ledger, and is invariant under any permutation of the
sequence (amounts are exact rationals, so no summation tolerance is
needed). -/
theorem calculate_balance_spec :
    calculate_balance [] = 0 ∧
    (∀ transactions, calculate_balance transactions =
      incomeSumSpec transactions - expenseSumSpec transactions) ∧
    (∀ (l l' : List Transaction), l.Perm l' →
      calculate_balance l = calculate_balance l') :=
  ⟨by simp [calculate_balance], balance_eq_spec, fun _ _ h => balance_perm h⟩

/-- Witness for C5: swapping two concrete entries leaves the balance
unchanged. -/
theorem calculate_balance_perm_witness :
    calculate_balance
        [⟨"income", "salary", 2500⟩, ⟨"expense", "food", 300⟩] =
      calculate_balance
        [⟨"expense", "food", 300⟩, ⟨"income", "salary", 2500⟩] :=
  calculate_balance_spec.2.2 _ _
    (List.Perm.swap (⟨"expense", "food", 300⟩ : Transaction)
      (⟨"income", "salary", 2500⟩ : Transaction) [])

/-- C6: the summary maps a category to `some` of the sum of the expense
amounts carrying it exactly when at least one expense entry carries it,
and to `none` otherwise (income contributes nothing, no zero-filled
keys); the summary is empty exactly when the ledger has no expenses. -/
theorem summary_by_category_spec (transactions : List Transaction)
    (cat : String) :
    (dictFind? (summary_by_category transactions) cat =
      if expenseCat transactions cat = [] then none
      else some (((expenseCat transactions cat).map
        (fun t => t.amount)).sum)) ∧
    (summary_by_category transactions = [] ↔
      transactions.filter (fun t => t.transaction_type == "expense") = []) := by
  refine ⟨?_, summary_eq_nil_iff transactions⟩
  have h := summary_foldl_find transactions [] cat
  unfold summary_by_category
  rw [h]
  by_cases hnil : expenseCat transactions cat = [] <;> simp [hnil, dictFind?]

/-- C7: a missing source resets the ledger to empty and reports the
distinct `notFound` outcome for both formats; when the file exists the
outcome is never `notFound` (either success or a propagated error). -/
theorem load_file_absent_spec (jfs : JsonFS) (cfs : CsvFS)
    (filename : String) (prior : List Transaction) :
    (jfs filename = none → load_json jfs filename prior = ([], .notFound)) ∧
    (cfs filename = none → load_csv cfs filename prior = ([], .notFound)) ∧
    (∀ data, jfs filename = some data →
      (load_json jfs filename prior).2 ≠ .notFound) ∧
    (∀ rows, cfs filename = some rows →
      (load_csv cfs filename prior).2 ≠ .notFound) := by
  refine ⟨?_, ?_, ?_, ?_⟩
  · intro h; simp [load_json, h]
  · intro h; simp [load_csv, h]
  · intro data h
    simp only [load_json, h]
    cases hm : mapExcept transactionFromKwargs data <;> simp
  · intro rows h
    simp only [load_csv, h]
    cases hm : mapExcept rowToTransaction rows <;> simp

/-- Witness for C7 on concrete filesystems. -/
theorem load_file_absent_instances :
    load_json emptyJsonFS "transactions.json" [⟨"income", "salary", 2500⟩] =
      ([], .notFound) ∧
    load_csv emptyCsvFS "transactions.csv" [⟨"income", "salary", 2500⟩] =
      ([], .notFound) ∧
    (load_csv csvWithGoodThenMalformed "transactions.csv" []).2 ≠
      .notFound :=
  ⟨(load_file_absent_spec emptyJsonFS emptyCsvFS "transactions.json"
      [⟨"income", "salary", 2500⟩]).1 rfl,
   (load_file_absent_spec emptyJsonFS emptyCsvFS "transactions.csv"
      [⟨"income", "salary", 2500⟩]).2.1 rfl,
   (load_file_absent_spec emptyJsonFS csvWithGoodThenMalformed
      "transactions.csv" []).2.2.2 [goodRow, malformedRow] rfl⟩

/-- C8 counterexample: rows convert in order, so a file whose
invalid-kind row precedes the malformed-amount row makes `load_csv` fail
with `invalidKind`, not `malformedAmount`, although it contains a row
with an unparseable amount. -/
theorem load_csv_error_precedence_counterexample :
    parseAmount "abc" = .error (.malformedAmount "abc") ∧
    load_csv csvWithBadThenMalformed "transactions.csv" [] =
      ([], .error .invalidKind) ∧
    VErr.invalidKind ≠ VErr.malformedAmount "abc" :=
  ⟨rfl, rfl, by simp⟩

/-- C8 (amended): a row whose amount text fails numeric parsing makes
`load_csv` fail with `malformedAmount` whenever the rows before it
convert (rows are processed in order, so an earlier offending row
reports its own error instead); in every case a failing row aborts the
whole load leaving the prior in-memory sequence unchanged. -/
theorem load_csv_malformed_spec (cfs : CsvFS) (filename : String)
    (prior : List Transaction) :
    (∀ pre row post, cfs filename = some (pre ++ row :: post) →
      (∀ p ∈ pre, ∃ t, rowToTransaction p = .ok t) →
      parseAmount row.amount = .error (.malformedAmount row.amount) →
      load_csv cfs filename prior =
        (prior, .error (.malformedAmount row.amount))) ∧
    (∀ rows row, cfs filename = some rows → row ∈ rows →
      (∀ t, rowToTransaction row ≠ .ok t) →
      ∃ e, load_csv cfs filename prior = (prior, .error e)) := by
  constructor
  · intro pre row post hfile hpre hrow
    have hr : rowToTransaction row = .error (.malformedAmount row.amount) := by
      unfold rowToTransaction
      rw [hrow]
    have hm := mapExcept_append_error hpre post hr
    simp only [load_csv, hfile, hm]
  · intro rows row hfile hmem hbad
    rcases mapExcept_error_of_mem hmem hbad with ⟨e, he⟩
    exact ⟨e, by simp only [load_csv, hfile, he]⟩

/-- Witness for the amended C8: a good row followed by an `"abc"` amount
aborts the whole load with `malformedAmount`, keeping the prior list. -/
theorem load_csv_malformed_witness :
    load_csv csvWithGoodThenMalformed "transactions.csv"
        [⟨"income", "salary", 2500⟩] =
      ([⟨"income", "salary", 2500⟩], .error (.malformedAmount "abc")) :=
  (load_csv_malformed_spec csvWithGoodThenMalformed "transactions.csv"
      [⟨"income", "salary", 2500⟩]).1 [goodRow] malformedRow [] rfl
    (by
      intro p hp
      simp only [List.mem_singleton] at hp
      subst hp
      exact ⟨_, rfl⟩)
    rfl

/-- C9: every operation preserves the invariant that each listed
transaction has a recognized kind and positive amount — construction
admits only valid records, and `add_transaction`, `load_json` and
`load_csv` keep a valid list valid. -/
theorem transactions_invariant_spec :
    (∀ (ty cat : String) (amount : Rat) (t : Transaction),
      Transaction.mk? ty cat amount = .ok t → ValidT t) ∧
    (∀ (prior : List Transaction) (ty cat : String) (amount : Rat),
      (∀ t ∈ prior, ValidT t) →
      ∀ t ∈ (add_transaction prior ty cat amount).1, ValidT t) ∧
    (∀ (jfs : JsonFS) (filename : String) (prior : List Transaction),
      (∀ t ∈ prior, ValidT t) →
      ∀ t ∈ (load_json jfs filename prior).1, ValidT t) ∧
    (∀ (cfs : CsvFS) (filename : String) (prior : List Transaction),
      (∀ t ∈ prior, ValidT t) →
      ∀ t ∈ (load_csv cfs filename prior).1, ValidT t) := by
  refine ⟨fun ty cat amount t h => mk?_valid h, ?_, ?_, ?_⟩
  · intro prior ty cat amount hprior t ht
    cases hmk : Transaction.mk? ty cat amount with
    | ok t0 =>
      simp only [add_transaction, hmk] at ht
      rcases List.mem_append.mp ht with hmem | hmem
      · exact hprior t hmem
      · rw [List.mem_singleton] at hmem
        subst hmem
        exact mk?_valid hmk
    | error e =>
      simp only [add_transaction, hmk] at ht
      exact hprior t ht
  · intro jfs filename prior hprior t ht
    cases hfs : jfs filename with
    | none =>
      simp only [load_json, hfs] at ht
      simp at ht
    | some data =>
      cases hm : mapExcept transactionFromKwargs data with
      | ok ts =>
        simp only [load_json, hfs, hm] at ht
        rcases mapExcept_ok_mem hm t ht with ⟨item, _, hitem⟩
        exact transactionFromKwargs_valid hitem
      | error e =>
        simp only [load_json, hfs, hm] at ht
        exact hprior t ht
  · intro cfs filename prior hprior t ht
    cases hfs : cfs filename with
    | none =>
      simp only [load_csv, hfs] at ht
      simp at ht
    | some rows =>
      cases hm : mapExcept rowToTransaction rows with
      | ok ts =>
        simp only [load_csv, hfs, hm] at ht
        rcases mapExcept_ok_mem hm t ht with ⟨r, _, hr⟩
        exact rowToTransaction_valid hr
      | error e =>
        simp only [load_csv, hfs, hm] at ht
        exact hprior t ht

/-- Witness for C9: the invariant at a constructed transaction and at a
transaction produced by a successful CSV load. -/
theorem transactions_invariant_instances :
    ValidT ⟨"income", "salary", 2500⟩ ∧
    ValidT ⟨"expense", "food", 5⟩ :=
  ⟨transactions_invariant_spec.1 "income" "salary" 2500
     ⟨"income", "salary", 2500⟩ rfl,
   transactions_invariant_spec.2.2.2 csvGoodFS "transactions.csv" []
     (by simp) ⟨"expense", "food", 5⟩ (by decide)⟩

/-- C10: the summary values add up to the expense total, so the balance
equals the income total minus the summary total — the two aggregations
are mutually consistent. -/
theorem summary_balance_consistency (transactions : List Transaction) :
    summaryValuesTotal (summary_by_category transactions) =
      expenseSumSpec transactions ∧
    calculate_balance transactions =
      incomeSumSpec transactions -
        summaryValuesTotal (summary_by_category transactions) := by
  have h1 : summaryValuesTotal (summary_by_category transactions) =
      expenseSumSpec transactions := by
    unfold summary_by_category
    rw [summaryValuesTotal_foldl]
    simp [summaryValuesTotal]
  exact ⟨h1, by rw [h1]; exact balance_eq_spec transactions⟩

end ExpenseSystem
